import Mathlib

/-!
Verification of the binding/call bridge of the `webview` library
(`src/src/engine_base.cpp`, `src/include/webview/detail/engine_base.inl`,
`src/include/webview/detail/engine_base.h`, `src/include/webview/errors.h`).

The bridge state kept by class `Webview` is embedded shallowly:

* `bindings_`        : an association list from binding name to an opaque
  handler token (the C++ stores a `std::shared_ptr<binding_t>` closure; the
  closure body is irrelevant to the claims proved here, so handlers are
  abstracted as `Nat` tokens).
* `reverse_bindings_`: an association list from call id to an opaque
  reverse-binding token (`std::shared_ptr<reverse_binding_t>`).
* `bind_script_`     : the binding-registration user script; this development
  models its content by the list of method names placed in the generated
  `var methods = [...]` array (`Webview::CreateBindScript`).
* `promises_`        : the pending-promise table, `none` once shutdown has
  moved it out (`Webview::CleanPromises`); entries are modelled by their
  string keys.
* `next_id_`, `nonce_`, `user_scripts_` as in the header.

Side effects are made explicit: every operation returns the list of effects
it performs, in order.  `Effect.dispatch` is a task posted to the
single-threaded dispatch loop (`Webview::Dispatch`, which on the Win32
backend posts a `WM_APP` message); `Effect.eval` is a synchronous script
evaluation (`Webview::Eval`); `Effect.logInvalidNonce` is the
`std::cerr << "Invalid nonce !"` line.  C++ exceptions are embedded as
`Except` errors: an operation that throws returns `.error e` and (because a
C++ exception does not roll anything back) any state mutation performed
before the throw is kept in the returned state where the signature allows it.
-/

namespace Webview

/-! ## Association-list helpers

`bindings_` and `reverse_bindings_` are `std::unordered_map`s with unique
keys.  They are embedded as association lists; `findVal` models
`find`/`at`/`count` lookups and `eraseKey` models `erase(key)` (it removes
every entry with the key, which coincides with map erasure because the
emplace guards keep keys unique). -/

def findVal (k : String) : List (String × Nat) → Option Nat
  | [] => none
  | (a, b) :: rest => if a = k then some b else findVal k rest

def eraseKey (k : String) : List (String × Nat) → List (String × Nat)
  | [] => []
  | (a, b) :: rest => if a = k then eraseKey k rest else (a, b) :: eraseKey k rest

theorem findVal_eraseKey_self (k : String) (l : List (String × Nat)) :
    findVal k (eraseKey k l) = none := by
  induction l with
  | nil => rfl
  | cons p rest ih =>
    by_cases h : p.1 = k
    · simpa [eraseKey, h] using ih
    · simp [eraseKey, findVal, h, ih]

theorem findVal_isSome_iff_mem_keys (k : String) (l : List (String × Nat)) :
    (findVal k l).isSome = true ↔ k ∈ l.map Prod.fst := by
  induction l with
  | nil => simp [findVal]
  | cons p rest ih =>
    by_cases h : p.1 = k
    · simp [findVal, h]
    · simp [findVal, h, ih, Ne.symm h]

/-! ## Wire messages (`engine_base.cpp`, structs `Header`, `ReplyMessage`,
`ReverseMessage`)

The C++ decodes an inbound raw string with `js::Parse<Message>` where
`Message = std::variant<ReverseMessage, ReplyMessage>`, discriminated by the
`reverse` field.  The JSON library (`json/json.h`) is not part of `src/`;
its interface signals failure by throwing (cf. the
`js::SerializableException` catch blocks in `engine_base.inl`).  A raw
inbound string is therefore embedded as either a well-formed `Message` or a
`malformed` token, and `jsParse` either returns the message or throws. -/

structure Header where
  /-- JSON field `nonce`. -/
  nonce : String
  /-- JSON field `reverse`. -/
  reverse : Bool
  /-- JSON field `id`. -/
  id : String
  /-- JSON field `method` (C++ member `name_`). -/
  method : String
deriving DecidableEq, Repr

/-- Forward call from script to native (C++ `ReplyMessage`): header plus the
`params` field. -/
structure ReplyMessage where
  header : Header
  params : String
deriving DecidableEq, Repr

/-- Reverse reply from script to native (C++ `ReverseMessage`): header plus
`error` and optional `result`. -/
structure ReverseMessage where
  header : Header
  error : Bool
  result : Option String
deriving DecidableEq, Repr

inductive Message where
  | reply (m : ReplyMessage)
  | reverse (m : ReverseMessage)
deriving DecidableEq, Repr

/-- A raw inbound string: either it decodes to a `Message` or it is
malformed (invalid JSON, required field absent, wrong field type). -/
inductive RawMsg where
  | wellFormed (m : Message)
  | malformed
deriving DecidableEq, Repr

/-- Exceptions thrown by the bridge code, from `errors.h` plus the two
exception sources inside `OnMessage`. -/
inductive Err where
  /-- `Exception(WEBVIEW_ERROR_DUPLICATE, name)` thrown by `Bind`. -/
  | duplicate (name : String)
  /-- `Exception(WEBVIEW_ERROR_NOT_FOUND, ...)` thrown by `Unbind`. -/
  | notFound (name : String)
  /-- `Exception(WEBVIEW_ERROR_CANCELED, "Webview is terminating")` thrown by `Call`. -/
  | cancelled
  /-- the exception thrown by `js::Parse` on undecodable input. -/
  | parseError
  /-- `std::out_of_range` thrown by `bindings_.at` on an unknown method. -/
  | outOfRange
deriving DecidableEq, Repr

/-- Modelled from the library interface: `js::Parse<Message>`
(`json/json.h`, not under `src/`) returns the decoded message or throws on
malformed input, as witnessed by the catch blocks around the other
`js::Parse` call sites in `engine_base.inl`. -/
def jsParse : RawMsg → Except Err Message
  | .wellFormed m => .ok m
  | .malformed => .error .parseError

/-! ## Effects -/

/-- Script evaluations issued by the bridge (`Webview::Eval` call sites). -/
inductive EvalMsg where
  /-- the `window.__webview__.onBind(name, nonce)` notification issued by `Bind`. -/
  | onBind (name : String) (nonce : String)
  /-- the `window.__webview__.onUnbind(name, nonce)` notification issued by `Unbind`. -/
  | onUnbind (name : String) (nonce : String)
  /-- the `window.__webview__.reverseCall(name, id, nonce, args)` evaluation
  issued by the dispatched part of `Call`. -/
  | reverseCall (name : String) (id : String) (nonce : String)
deriving DecidableEq, Repr

/-- Closures posted to the dispatch loop (`Webview::Dispatch` call sites). -/
inductive Task where
  /-- the lambda `Call` posts unconditionally before its shutdown check
  (`engine_base.inl`, the `Dispatch` starting at line 326). -/
  | callTask (id : String) (name : String)
  /-- the lambda `OnMessage` posts for a forward call: invoke the bound
  handler with `(id, params)`. -/
  | invokeBinding (handler : Nat) (id : String) (params : String)
  /-- the lambda `OnMessage` posts for a reverse reply: invoke the consumed
  reverse binding with `(error, result)`. -/
  | invokeReverse (rb : Nat) (error : Bool) (result : String)
deriving DecidableEq, Repr

inductive Effect where
  | dispatch (t : Task)
  | eval (m : EvalMsg)
  /-- the `std::cerr << "Invalid nonce !"` log line in `OnMessage`. -/
  | logInvalidNonce
deriving DecidableEq, Repr

/-! ## Bridge state -/

structure WebviewState where
  /-- `nonce_`: the per-session random token. -/
  nonce : String
  /-- `bindings_`: binding name to handler token. -/
  bindings : List (String × Nat)
  /-- `reverse_bindings_`: call id to reverse-binding token. -/
  reverseBindings : List (String × Nat)
  /-- content (method-name array) of `bind_script_`, `none` before the first
  `ReplaceBindScript`. -/
  bindScript : Option (List String)
  /-- other user scripts added via `Init`/`AddUserScript`. -/
  userScripts : List String
  /-- `next_id_`. -/
  nextId : Nat
  /-- `promises_` handle keys; `none` after shutdown moved the table out. -/
  promises : Option (List String)
deriving DecidableEq, Repr

/-- `Webview::CreateBindScript` (engine_base.cpp:267): the method-name array
placed in the generated registration script, one entry per current binding. -/
def CreateBindScript (st : WebviewState) : List String :=
  st.bindings.map Prod.fst

/-- `Webview::ReplaceBindScript` (engine_base.cpp:106): regenerate the
registration script from the current bindings and (re)install it as the
tracked `bind_script_`, leaving the other user scripts in place. -/
def ReplaceBindScript (st : WebviewState) : WebviewState :=
  { st with bindScript := some (CreateBindScript st) }

/-- `Webview::Bind` (engine_base.inl:151): `bindings_.emplace` fails if the
name is present (the map is untouched) and the function throws
`WEBVIEW_ERROR_DUPLICATE`; on success it stores the handler, regenerates the
registration script and evaluates the `onBind` notification. -/
def Bind (st : WebviewState) (name : String) (handler : Nat) :
    Except Err (WebviewState × List Effect) :=
  if (findVal name st.bindings).isSome then
    .error (.duplicate name)
  else
    let st1 := { st with bindings := st.bindings ++ [(name, handler)] }
    let st2 := ReplaceBindScript st1
    .ok (st2, [Effect.eval (EvalMsg.onBind name st.nonce)])

/-- `Webview::Unbind` (engine_base.cpp:60): `bindings_.erase(name)` removes
nothing and the function throws `WEBVIEW_ERROR_NOT_FOUND` when the name is
absent; on success it erases the handler, regenerates the registration
script and evaluates the `onUnbind` notification. -/
def Unbind (st : WebviewState) (name : String) :
    Except Err (WebviewState × List Effect) :=
  if (findVal name st.bindings).isNone then
    .error (.notFound name)
  else
    let st1 := { st with bindings := eraseKey name st.bindings }
    let st2 := ReplaceBindScript st1
    .ok (st2, [Effect.eval (EvalMsg.onUnbind name st.nonce)])

/-- `Webview::OnMessage` (engine_base.cpp:335).  Decodes the raw message
(`js::Parse` throws on malformed input — there is no try/catch in
`OnMessage`), checks the nonce (mismatch: log and drop), then either looks
the method up with `bindings_.at` (which throws `std::out_of_range` when the
method is not bound) and dispatches the handler invocation, or consumes the
matching reverse binding — erasing it from `reverse_bindings_` before
dispatching its completion — and ignores a reverse reply whose id has no
binding. -/
def OnMessage (st : WebviewState) (raw : RawMsg) :
    Except Err (WebviewState × List Effect) :=
  match jsParse raw with
  | .error e => .error e
  | .ok (.reply msg) =>
    if msg.header.nonce ≠ st.nonce then
      .ok (st, [Effect.logInvalidNonce])
    else
      match findVal msg.header.method st.bindings with
      | none => .error .outOfRange
      | some handler =>
        .ok (st, [Effect.dispatch (Task.invokeBinding handler msg.header.id msg.params)])
  | .ok (.reverse msg) =>
    if msg.header.nonce ≠ st.nonce then
      .ok (st, [Effect.logInvalidNonce])
    else
      match findVal msg.header.id st.reverseBindings with
      | none => .ok (st, [])
      | some rb =>
        .ok ({ st with reverseBindings := eraseKey msg.header.id st.reverseBindings },
             [Effect.dispatch (Task.invokeReverse rb msg.error (msg.result.getD ""))])

/-- Synchronous part of `Webview::Call` (engine_base.inl:247).  It allocates
`id = std::to_string(++next_id_)`, posts the send-task to the dispatch loop
unconditionally, and only then checks `promises_`: when the table is gone it
throws `WEBVIEW_ERROR_CANCELED` (the posted task survives the throw but the
dispatch queue is no longer drained after termination); otherwise it returns
the promise for `id`.  The result component is `.ok id` for a returned
future and `.error .cancelled` for the throw. -/
def Call (st : WebviewState) (name : String) :
    WebviewState × List Effect × Except Err String :=
  let id := Nat.repr (st.nextId + 1)
  let st1 := { st with nextId := st.nextId + 1 }
  let effs := [Effect.dispatch (Task.callTask id name)]
  if st1.promises.isNone then
    (st1, effs, .error .cancelled)
  else
    (st1, effs, .ok id)

/-- `Webview::Navigate` (engine_base.cpp:51): the URL handed to
`NavigateImpl` — `"about:blank"` when `url.empty()`, the URL itself
otherwise. -/
def Navigate (url : String) : String :=
  if url = "" then "about:blank" else url

/-- Nonce of a well-formed message (field `nonce` of the common header). -/
def msgNonce : Message → String
  | .reply m => m.header.nonce
  | .reverse m => m.header.nonce

/-! ## Registration-script sequences (for the `Bind`/`Unbind` invariant) -/

inductive RegOp where
  | bind (name : String) (handler : Nat)
  | unbind (name : String)
deriving DecidableEq, Repr

/-- Apply one `Bind`/`Unbind`; a thrown exception leaves the state as it
was. -/
def applyReg (st : WebviewState) : RegOp → WebviewState
  | .bind n h =>
    match Bind st n h with
    | .ok (st', _) => st'
    | .error _ => st
  | .unbind n =>
    match Unbind st n with
    | .ok (st', _) => st'
    | .error _ => st

/-- Freshly constructed `Webview`: empty tables, live promise table, no
registration script yet. -/
def initState (nonce : String) : WebviewState :=
  { nonce := nonce, bindings := [], reverseBindings := [], bindScript := none,
    userScripts := [], nextId := 0, promises := some [] }

def runReg (nonce : String) (ops : List RegOp) : WebviewState :=
  ops.foldl applyReg (initState nonce)

/-- Method names registered by the current registration script (empty when
the script has not been generated yet). -/
def bindScriptNames (st : WebviewState) : List String :=
  st.bindScript.getD []

/-! ## Outbound-call lifecycle trace model (for the settlement claim)

The bridge serializes every mutation of `reverse_bindings_` and
`promises_->handles_` and every promise settlement onto the single dispatch
thread, so an execution is a sequence of atomic steps.  Call ids are kept as
the naturals produced by `++next_id_` (the wire renders them with the
injective `std::to_string`).  Each step bundles the C++ actions that the
dispatch loop runs back to back:

* `call` — `Webview::Call` plus (while the loop still runs) its dispatched
  task: allocate the id, register the reverse binding, register the
  `call_<id>` handle in `promises_` and send the reverse-call evaluation.
  After shutdown the task is posted but never executed (the queue is no
  longer drained, cf. engine_base.inl:354), so only `next_id_` moves.
* `reply id` — `OnMessage` on a well-formed reverse reply carrying the
  session nonce, plus its dispatched completion: if the id has a live
  reverse binding, erase it, settle the promise (`resolve`/`MakeReject` of
  the reverse binding, recorded in `settled`), and run the settlement
  cleanup continuation which erases and detaches the `call_<id>` handle.
  After shutdown the erase in `OnMessage` still happens but the dispatched
  completion never runs, so nothing settles.  An id with no reverse binding
  is ignored.
* `shutdown` — `Webview::CleanPromises`: move `promises_` out (it becomes
  `none`) and, in `PromisesCleaner`, force-reject every still-pending
  handle with `WEBVIEW_ERROR_CANCELED` (recorded in `settled`).

Settlement of the promise library (`promise/promise.h`, not under `src/`)
is modelled from the spec: settling a `Pure` promise is the event recorded
in `settled`; the theorems below count these events per id. -/

structure BridgeState where
  /-- `next_id_`. -/
  nextId : Nat
  /-- ids of outbound calls that returned a future (issued before shutdown). -/
  issued : List Nat
  /-- ids with a live entry in `reverse_bindings_`. -/
  reverseBindings : List Nat
  /-- ids with a pending `call_<id>` handle in `promises_`; `none` once the
  table has been moved out by shutdown. -/
  handles : Option (List Nat)
  /-- settlement events (resolve, reject, or forced cancellation), one entry
  per event. -/
  settled : List Nat
deriving DecidableEq, Repr

inductive BOp where
  | call
  | reply (id : Nat)
  | shutdown
deriving DecidableEq, Repr

/-- Remove every occurrence of `id` (erasure from a unique-key table). -/
def removeId (id : Nat) : List Nat → List Nat
  | [] => []
  | x :: rest => if x = id then removeId id rest else x :: removeId id rest

/-- Occurrence count of `id`. -/
def occ (id : Nat) : List Nat → Nat
  | [] => 0
  | x :: rest => (if x = id then 1 else 0) + occ id rest

def stepB (st : BridgeState) : BOp → BridgeState
  | .call =>
    match st.handles with
    | some hs =>
      let id := st.nextId + 1
      { st with nextId := id, issued := st.issued ++ [id],
                reverseBindings := st.reverseBindings ++ [id],
                handles := some (hs ++ [id]) }
    | none => { st with nextId := st.nextId + 1 }
  | .reply id =>
    if id ∈ st.reverseBindings then
      match st.handles with
      | some hs =>
        { st with reverseBindings := removeId id st.reverseBindings,
                  handles := some (removeId id hs),
                  settled := st.settled ++ [id] }
      | none =>
        { st with reverseBindings := removeId id st.reverseBindings }
    else st
  | .shutdown =>
    match st.handles with
    | some hs => { st with handles := none, settled := st.settled ++ hs }
    | none => st

def initB : BridgeState :=
  { nextId := 0, issued := [], reverseBindings := [], handles := some [], settled := [] }

def runB (ops : List BOp) : BridgeState :=
  ops.foldl stepB initB

/-- Effects of the shutdown-draining coroutine. -/
inductive DrainEff where
  /-- `handle.second.Reject<Exception>(WEBVIEW_ERROR_CANCELED, ...)`. -/
  | reject (id : Nat)
  /-- `co_await handle.second` — wait for the underlying computation. -/
  | waitDone (id : Nat)
  /-- destruction of the moved-out `promises_` table. -/
  | release
deriving DecidableEq, Repr

/-- The per-handle body of the `PromisesCleaner` loop: force a cancellation
rejection, then await the handle, for each pending handle in turn. -/
def drainSeq : List Nat → List DrainEff
  | [] => []
  | id :: rest => DrainEff.reject id :: DrainEff.waitDone id :: drainSeq rest

/-- `Webview::PromisesCleaner` (engine_base.cpp:448): the draining coroutine
rejects and awaits every still-pending handle; the table is released only
after the loop has completed (the destructor blocks on `done_`). -/
def PromisesCleaner (hs : List Nat) : List DrainEff :=
  drainSeq hs ++ [DrainEff.release]

theorem mem_removeId {id a : Nat} :
    ∀ {l : List Nat}, a ∈ removeId id l ↔ a ∈ l ∧ a ≠ id := by
  intro l
  induction l with
  | nil => simp [removeId]
  | cons x rest ih =>
    by_cases hx : x = id
    · simp only [removeId, if_pos hx, ih, List.mem_cons, hx]
      tauto
    · by_cases ha : a = x
      · subst ha
        simp [removeId, hx, List.mem_cons]
      · simp only [removeId, if_neg hx, List.mem_cons, ih]
        tauto

theorem nodup_removeId {id : Nat} :
    ∀ {l : List Nat}, l.Nodup → (removeId id l).Nodup := by
  intro l
  induction l with
  | nil => intro _; simp [removeId]
  | cons x rest ih =>
    intro hnd
    rcases List.nodup_cons.mp hnd with ⟨hx, hrest⟩
    by_cases hxi : x = id
    · simpa [removeId, hxi] using ih hrest
    · rw [removeId, if_neg hxi]
      refine List.nodup_cons.mpr ⟨?_, ih hrest⟩
      intro hmem
      exact hx (mem_removeId.mp hmem).1

theorem occ_append (id : Nat) (l₁ l₂ : List Nat) :
    occ id (l₁ ++ l₂) = occ id l₁ + occ id l₂ := by
  induction l₁ with
  | nil => simp [occ]
  | cons x rest ih => simp [occ, ih]; omega

theorem occ_eq_zero_of_not_mem {id : Nat} :
    ∀ {l : List Nat}, id ∉ l → occ id l = 0 := by
  intro l
  induction l with
  | nil => intro _; rfl
  | cons x rest ih =>
    intro h
    have hx : x ≠ id := fun he => h (he ▸ List.mem_cons_self x rest)
    have hrest : id ∉ rest := fun hm => h (List.mem_cons_of_mem x hm)
    simp [occ, ih hrest, hx]

theorem occ_eq_one_of_nodup_mem {id : Nat} :
    ∀ {l : List Nat}, l.Nodup → id ∈ l → occ id l = 1 := by
  intro l
  induction l with
  | nil => intro _ h; cases h
  | cons x rest ih =>
    intro hnd hmem
    rcases List.nodup_cons.mp hnd with ⟨hx, hrest⟩
    by_cases he : x = id
    · subst he
      simp [occ, occ_eq_zero_of_not_mem hx]
    · rcases List.mem_cons.mp hmem with h | h
      · exact absurd h.symm he
      · simp [occ, he, ih hrest h]

/-- Safety invariant of the outbound-call trace model: issued ids are
distinct and bounded by the counter, the reverse-binding and handle tables
agree while the promise table is alive, a pending call has no settlement
yet, and a call that is no longer pending (settled or drained) has settled
exactly once. -/
structure BInv (st : BridgeState) : Prop where
  nodupIssued : st.issued.Nodup
  leNext : ∀ id, id ∈ st.issued → id ≤ st.nextId
  rbSub : ∀ id, id ∈ st.reverseBindings → id ∈ st.issued
  hsSub : ∀ hs, st.handles = some hs → ∀ id, id ∈ hs → id ∈ st.issued
  hsNodup : ∀ hs, st.handles = some hs → hs.Nodup
  rbIffHs : ∀ hs, st.handles = some hs → ∀ id, id ∈ st.issued →
      (id ∈ st.reverseBindings ↔ id ∈ hs)
  settledSub : ∀ id, id ∈ st.settled → id ∈ st.issued
  pendingZero : ∀ hs, st.handles = some hs → ∀ id, id ∈ st.issued →
      id ∈ st.reverseBindings → occ id st.settled = 0
  doneOne : ∀ id, id ∈ st.issued →
      (st.handles = none ∨ id ∉ st.reverseBindings) → occ id st.settled = 1

theorem BInv_init : BInv initB := by
  refine ⟨?_, ?_, ?_, ?_, ?_, ?_, ?_, ?_, ?_⟩ <;> simp [initB]

theorem BInv_step {st : BridgeState} (h : BInv st) (op : BOp) : BInv (stepB st op) := by
  obtain ⟨n, iss, rb, hsOpt, se⟩ := st
  cases op with
  | call =>
    cases hsOpt with
    | none =>
      refine ⟨h.nodupIssued, ?_, h.rbSub, h.hsSub, h.hsNodup, h.rbIffHs,
              h.settledSub, h.pendingZero, h.doneOne⟩
      intro id hid
      exact Nat.le_succ_of_le (h.leNext id hid)
    | some hs =>
      show BInv ⟨n + 1, iss ++ [n + 1], rb ++ [n + 1], some (hs ++ [n + 1]), se⟩
      have hfresh : (n + 1) ∉ iss := fun hmem => by
        have hle : n + 1 ≤ n := h.leNext _ hmem
        omega
      have hfreshRb : (n + 1) ∉ rb := fun hmem => hfresh (h.rbSub _ hmem)
      have hfreshHs : (n + 1) ∉ hs := fun hmem => hfresh (h.hsSub hs rfl _ hmem)
      have hfreshSe : (n + 1) ∉ se := fun hmem => hfresh (h.settledSub _ hmem)
      refine ⟨?_, ?_, ?_, ?_, ?_, ?_, ?_, ?_, ?_⟩
      · rw [List.nodup_append]
        refine ⟨h.nodupIssued, List.nodup_singleton _, ?_⟩
        intro a ha hb
        rw [List.mem_singleton] at hb
        exact hfresh (hb ▸ ha)
      · intro id hid
        rcases List.mem_append.mp hid with hid | hid
        · exact Nat.le_succ_of_le (h.leNext id hid)
        · rw [List.mem_singleton] at hid
          exact Nat.le_of_eq hid
      · intro id hid
        rcases List.mem_append.mp hid with hid | hid
        · exact List.mem_append_left _ (h.rbSub id hid)
        · exact List.mem_append_right _ hid
      · intro hs2 heq id hid
        cases heq
        rcases List.mem_append.mp hid with hid | hid
        · exact List.mem_append_left _ (h.hsSub hs rfl id hid)
        · exact List.mem_append_right _ hid
      · intro hs2 heq
        cases heq
        rw [List.nodup_append]
        refine ⟨h.hsNodup hs rfl, List.nodup_singleton _, ?_⟩
        intro a ha hb
        rw [List.mem_singleton] at hb
        exact hfreshHs (hb ▸ ha)
      · intro hs2 heq id hid
        cases heq
        rcases List.mem_append.mp hid with hid | hid
        · have hne : id ≠ n + 1 := fun he => hfresh (he ▸ hid)
          constructor
          · intro hmem
            rcases List.mem_append.mp hmem with hmem | hmem
            · exact List.mem_append_left _ ((h.rbIffHs hs rfl id hid).mp hmem)
            · rw [List.mem_singleton] at hmem
              exact absurd hmem hne
          · intro hmem
            rcases List.mem_append.mp hmem with hmem | hmem
            · exact List.mem_append_left _ ((h.rbIffHs hs rfl id hid).mpr hmem)
            · rw [List.mem_singleton] at hmem
              exact absurd hmem hne
        · rw [List.mem_singleton] at hid
          subst hid
          simp
      · intro id hid
        exact List.mem_append_left _ (h.settledSub id hid)
      · intro hs2 heq id hid hrb
        cases heq
        rcases List.mem_append.mp hid with hid | hid
        · have hne : id ≠ n + 1 := fun he => hfresh (he ▸ hid)
          have hrb2 : id ∈ rb := by
            rcases List.mem_append.mp hrb with hm | hm
            · exact hm
            · rw [List.mem_singleton] at hm
              exact absurd hm hne
          exact h.pendingZero hs rfl id hid hrb2
        · rw [List.mem_singleton] at hid
          subst hid
          exact occ_eq_zero_of_not_mem hfreshSe
      · intro id hid hcond
        rcases hcond with hcond | hcond
        · cases hcond
        · have hnrb : id ∉ rb := fun hm => hcond (List.mem_append_left _ hm)
          have hne : id ≠ n + 1 := fun he =>
            hcond (List.mem_append_right _ (he ▸ List.mem_singleton_self _))
          rcases List.mem_append.mp hid with hid | hid
          · exact h.doneOne id hid (Or.inr hnrb)
          · rw [List.mem_singleton] at hid
            exact absurd hid hne
  | reply id0 =>
    by_cases hmem : id0 ∈ rb
    · cases hsOpt with
      | some hs =>
        simp only [stepB, if_pos hmem]
        show BInv ⟨n, iss, removeId id0 rb, some (removeId id0 hs), se ++ [id0]⟩
        have hiss0 : id0 ∈ iss := h.rbSub _ hmem
        have hhs0 : id0 ∈ hs := (h.rbIffHs hs rfl id0 hiss0).mp hmem
        refine ⟨h.nodupIssued, h.leNext, ?_, ?_, ?_, ?_, ?_, ?_, ?_⟩
        · intro id hid
          exact h.rbSub id (mem_removeId.mp hid).1
        · intro hs2 heq id hid
          cases heq
          exact h.hsSub hs rfl id (mem_removeId.mp hid).1
        · intro hs2 heq
          cases heq
          exact nodup_removeId (h.hsNodup hs rfl)
        · intro hs2 heq id hid
          cases heq
          rw [mem_removeId, mem_removeId]
          constructor
          · rintro ⟨hm, hne⟩
            exact ⟨(h.rbIffHs hs rfl id hid).mp hm, hne⟩
          · rintro ⟨hm, hne⟩
            exact ⟨(h.rbIffHs hs rfl id hid).mpr hm, hne⟩
        · intro id hid
          rcases List.mem_append.mp hid with hid | hid
          · exact h.settledSub id hid
          · rw [List.mem_singleton] at hid
            exact hid ▸ hiss0
        · intro hs2 heq id hid hrb
          cases heq
          rcases mem_removeId.mp hrb with ⟨hrb2, hne⟩
          rw [occ_append]
          have h1 : occ id se = 0 := h.pendingZero hs rfl id hid hrb2
          have h2 : occ id [id0] = 0 := by
            simp only [occ, Nat.add_zero]
            exact if_neg fun he => hne he.symm
          omega
        · intro id hid hcond
          rcases hcond with hcond | hcond
          · cases hcond
          · rw [occ_append]
            by_cases he : id = id0
            · subst he
              have h1 : occ id se = 0 := h.pendingZero hs rfl id hid hmem
              have h2 : occ id [id] = 1 := by simp [occ]
              omega
            · have hnrb : id ∉ rb := fun hm => hcond (mem_removeId.mpr ⟨hm, he⟩)
              have h1 : occ id se = 1 := h.doneOne id hid (Or.inr hnrb)
              have h2 : occ id [id0] = 0 := by
                simp only [occ, Nat.add_zero]
                exact if_neg fun hx => he hx.symm
              omega
      | none =>
        simp only [stepB, if_pos hmem]
        show BInv ⟨n, iss, removeId id0 rb, none, se⟩
        refine ⟨h.nodupIssued, h.leNext, ?_, ?_, ?_, ?_, h.settledSub, ?_, ?_⟩
        · intro id hid
          exact h.rbSub id (mem_removeId.mp hid).1
        · intro hs2 heq
          cases heq
        · intro hs2 heq
          cases heq
        · intro hs2 heq
          cases heq
        · intro hs2 heq
          cases heq
        · intro id hid _
          exact h.doneOne id hid (Or.inl rfl)
    · simpa only [stepB, if_neg hmem] using h
  | shutdown =>
    cases hsOpt with
    | none => exact h
    | some hs =>
      show BInv ⟨n, iss, rb, none, se ++ hs⟩
      refine ⟨h.nodupIssued, h.leNext, h.rbSub, ?_, ?_, ?_, ?_, ?_, ?_⟩
      · intro hs2 heq
        cases heq
      · intro hs2 heq
        cases heq
      · intro hs2 heq
        cases heq
      · intro id hid
        rcases List.mem_append.mp hid with hid | hid
        · exact h.settledSub id hid
        · exact h.hsSub hs rfl id hid
      · intro hs2 heq
        cases heq
      · intro id hid _
        rw [occ_append]
        by_cases hrb : id ∈ rb
        · have h1 : occ id se = 0 := h.pendingZero hs rfl id hid hrb
          have h2 : occ id hs = 1 :=
            occ_eq_one_of_nodup_mem (h.hsNodup hs rfl) ((h.rbIffHs hs rfl id hid).mp hrb)
          omega
        · have h1 : occ id se = 1 := h.doneOne id hid (Or.inr hrb)
          have h2 : occ id hs = 0 :=
            occ_eq_zero_of_not_mem (fun hm => hrb ((h.rbIffHs hs rfl id hid).mpr hm))
          omega

theorem BInv_runB (ops : List BOp) : BInv (runB ops) := by
  have haux : ∀ (l : List BOp) (st : BridgeState), BInv st → BInv (l.foldl stepB st) := by
    intro l
    induction l with
    | nil => intro st hst; exact hst
    | cons op rest ih => intro st hst; exact ih _ (BInv_step hst op)
  exact haux ops initB BInv_init

/-- Every pending handle gets its reject-then-await pair somewhere in the
draining loop. -/
theorem drainSeq_decompose (id : Nat) :
    ∀ (hs : List Nat), id ∈ hs → ∃ pre post,
      drainSeq hs = pre ++ [DrainEff.reject id, DrainEff.waitDone id] ++ post := by
  intro hs
  induction hs with
  | nil => intro hmem; cases hmem
  | cons x rest ih =>
    intro hmem
    rcases List.mem_cons.mp hmem with he | hm
    · subst he
      exact ⟨[], drainSeq rest, rfl⟩
    · rcases ih hm with ⟨pre, post, hpp⟩
      exact ⟨DrainEff.reject x :: DrainEff.waitDone x :: pre, post, by
        simp [drainSeq, hpp]⟩

/-! ## Registration-script invariant -/

/-- Relation between `bind_script_` and `bindings_` maintained by every
`Bind`/`Unbind`: once the registration script exists its method array is
exactly the current key set; before it exists no binding has been added. -/
def BindScriptInv (st : WebviewState) : Prop :=
  (st.bindScript = none → st.bindings = []) ∧
  (∀ l, st.bindScript = some l → l = st.bindings.map Prod.fst)

theorem BindScriptInv_applyReg {st : WebviewState} (h : BindScriptInv st) (op : RegOp) :
    BindScriptInv (applyReg st op) := by
  cases op with
  | bind n hdl =>
    unfold applyReg Bind
    by_cases hdup : (findVal n st.bindings).isSome
    · simpa [hdup] using h
    · simp only [hdup, if_false, Bool.false_eq_true]
      refine ⟨?_, ?_⟩
      · intro hnone
        cases hnone
      · intro l hl
        rw [ReplaceBindScript] at hl
        injection hl with hl
        rw [← hl]
        rfl
  | unbind n =>
    unfold applyReg Unbind
    by_cases habs : (findVal n st.bindings).isNone
    · simpa [habs] using h
    · simp only [habs, if_false, Bool.false_eq_true]
      refine ⟨?_, ?_⟩
      · intro hnone
        cases hnone
      · intro l hl
        rw [ReplaceBindScript] at hl
        injection hl with hl
        rw [← hl]
        rfl

theorem BindScriptInv_runReg (nonce : String) (ops : List RegOp) :
    BindScriptInv (runReg nonce ops) := by
  have haux : ∀ (l : List RegOp) (st : WebviewState),
      BindScriptInv st → BindScriptInv (l.foldl applyReg st) := by
    intro l
    induction l with
    | nil => intro st hst; exact hst
    | cons op rest ih => intro st hst; exact ih _ (BindScriptInv_applyReg hst op)
  exact haux ops (initState nonce) ⟨fun _ => rfl, fun l hl => by cases hl⟩

/-! ## Sample values used by witnesses and counterexamples -/

/-- A live bridge: fresh state with session nonce `"N"`. -/
def stLive : WebviewState := initState "N"

/-- A bridge whose shutdown has begun: the promise table has been moved
out. -/
def stShutdown : WebviewState := { stLive with promises := none }

/-- A live bridge holding one reverse binding (token `42`) for call id
`"7"`. -/
def stOneReverse : WebviewState := { stLive with reverseBindings := [("7", 42)] }

/-- A live bridge with one binding `add` (handler token `5`). -/
def stOneBinding : WebviewState :=
  { stLive with bindings := [("add", 5)], bindScript := some ["add"] }

/-- Forward call carrying the session nonce but naming an unbound method. -/
def msgUnknownMethod : ReplyMessage :=
  { header := { nonce := "N", reverse := false, id := "1", method := "nope" },
    params := "[]" }

/-- Forward call carrying a wrong nonce. -/
def msgWrongNonce : Message :=
  Message.reply
    { header := { nonce := "M", reverse := false, id := "1", method := "add" },
      params := "[]" }

/-- Reverse reply for call id `"7"` carrying the session nonce. -/
def msgReverse7 : ReverseMessage :=
  { header := { nonce := "N", reverse := true, id := "7", method := "mul" },
    error := false, result := some "12" }

/-! ## Claims -/

/-- C1 (counterexample): the claim says that a `Call` made after shutdown
fails with a Cancelled error **and nothing is enqueued** before the error is
raised.  The second conjunct is false on the code: `Call` posts its
send-task to the dispatch loop (engine_base.inl:326) unconditionally,
*before* the `!promises_` check that throws (engine_base.inl:353).  At the
concrete shut-down state, the call does raise `WEBVIEW_ERROR_CANCELED`, yet
the effect list is not empty: one dispatch task has been enqueued. -/
theorem C1_call_after_shutdown_counterexample :
    (Call stShutdown "foo").2.2 = Except.error Err.cancelled ∧
    (Call stShutdown "foo").2.1 = [Effect.dispatch (Task.callTask "1" "foo")] ∧
    (Call stShutdown "foo").2.1 ≠ [] := by
  refine ⟨rfl, rfl, ?_⟩
  intro hc
  cases hc

/-- C1 (amended): for every `Call` made after shutdown has begun (the
promise table is gone), the call fails immediately and synchronously with a
Cancelled error and no message is sent (no script evaluation happens)
before the error is raised; however one dispatch task is enqueued first —
it is never executed because the dispatch queue is no longer drained after
termination. -/
theorem C1_call_after_shutdown (st : WebviewState) (name : String)
    (h : st.promises = none) :
    (Call st name).2.2 = Except.error Err.cancelled ∧
    (∀ m, Effect.eval m ∉ (Call st name).2.1) ∧
    (Call st name).2.1 = [Effect.dispatch (Task.callTask (Nat.repr (st.nextId + 1)) name)] ∧
    (Call st name).1 = { st with nextId := st.nextId + 1 } := by
  obtain ⟨no, bi, rb, bs, us, ni, pr⟩ := st
  have h2 : pr = none := h
  subst h2
  refine ⟨rfl, ?_, rfl, rfl⟩
  intro m hm
  have hm2 : Effect.eval m ∈ [Effect.dispatch (Task.callTask (Nat.repr (ni + 1)) name)] := hm
  rw [List.mem_singleton] at hm2
  cases hm2

/-- C1 witness: the amended theorem applied at the concrete shut-down
state. -/
theorem C1_call_after_shutdown_witness :
    stShutdown.promises = none ∧
    ((Call stShutdown "x").2.2 = Except.error Err.cancelled ∧
     (∀ m, Effect.eval m ∉ (Call stShutdown "x").2.1) ∧
     (Call stShutdown "x").2.1 =
       [Effect.dispatch (Task.callTask (Nat.repr (stShutdown.nextId + 1)) "x")] ∧
     (Call stShutdown "x").1 = { stShutdown with nextId := stShutdown.nextId + 1 }) :=
  ⟨rfl, C1_call_after_shutdown stShutdown "x" rfl⟩

/-- C2 (code evaluation at the failing input): an inbound forward call with
the valid session nonce whose method is not bound does not produce a
defensive NotFound rejection reply — `OnMessage` looks the method up with
`bindings_.at` (engine_base.cpp:353), which throws `std::out_of_range`, and
no reply effect is produced. -/
theorem C2_unbound_method_lookup_throws :
    OnMessage stLive (RawMsg.wellFormed (Message.reply msgUnknownMethod)) =
      Except.error Err.outOfRange := by
  rfl

/-- C3 (counterexample): the claim says `OnMessage` never propagates an
exception on any input string; on a malformed raw message `js::Parse`
throws and `OnMessage` (which contains no try/catch) propagates it instead
of logging and dropping. -/
theorem C3_malformed_message_counterexample :
    OnMessage stLive RawMsg.malformed = Except.error Err.parseError := by
  rfl

/-- C3 (amended): a nonce mismatch on a decodable inbound message is logged
and the message dropped, with the bridge state unchanged and no exception;
but a raw message that fails to decode (malformed JSON or an absent
required field) makes `js::Parse` throw, and `OnMessage` — which installs
no exception handler — propagates that exception on every such input. -/
theorem C3_decode_failure_behavior :
    (∀ st, OnMessage st RawMsg.malformed = Except.error Err.parseError) ∧
    (∀ st (m : Message), msgNonce m ≠ st.nonce →
      OnMessage st (RawMsg.wellFormed m) = Except.ok (st, [Effect.logInvalidNonce])) := by
  refine ⟨fun st => rfl, ?_⟩
  intro st m hm
  cases m with
  | reply mm =>
    have hm2 : mm.header.nonce ≠ st.nonce := hm
    simp only [OnMessage, jsParse, if_pos hm2]
  | reverse mm =>
    have hm2 : mm.header.nonce ≠ st.nonce := hm
    simp only [OnMessage, jsParse, if_pos hm2]

/-- C3 witness: the amended theorem applied at the concrete live state, a
malformed message and a wrong-nonce message. -/
theorem C3_decode_failure_behavior_witness :
    OnMessage stLive RawMsg.malformed = Except.error Err.parseError ∧
    msgNonce msgWrongNonce ≠ stLive.nonce ∧
    OnMessage stLive (RawMsg.wellFormed msgWrongNonce) =
      Except.ok (stLive, [Effect.logInvalidNonce]) :=
  ⟨C3_decode_failure_behavior.1 stLive, by decide,
   C3_decode_failure_behavior.2 stLive msgWrongNonce (by decide)⟩

/-- C4: every well-formed inbound message whose nonce differs from the
session nonce is ignored: `OnMessage` returns the state unchanged (so no
reverse binding is consumed and bindings and promise table are untouched),
no handler-invocation or reply task is dispatched, and the only effect is
the log line. -/
theorem C4_nonce_mismatch_ignored (st : WebviewState) (m : Message)
    (h : msgNonce m ≠ st.nonce) :
    OnMessage st (RawMsg.wellFormed m) = Except.ok (st, [Effect.logInvalidNonce]) := by
  cases m with
  | reply mm =>
    have hm2 : mm.header.nonce ≠ st.nonce := h
    simp only [OnMessage, jsParse, if_pos hm2]
  | reverse mm =>
    have hm2 : mm.header.nonce ≠ st.nonce := h
    simp only [OnMessage, jsParse, if_pos hm2]

/-- C4 witness: the theorem applied at a concrete state and wrong-nonce
message. -/
theorem C4_nonce_mismatch_ignored_witness :
    msgNonce msgWrongNonce ≠ stOneBinding.nonce ∧
    OnMessage stOneBinding (RawMsg.wellFormed msgWrongNonce) =
      Except.ok (stOneBinding, [Effect.logInvalidNonce]) :=
  ⟨by decide, C4_nonce_mismatch_ignored stOneBinding msgWrongNonce (by decide)⟩

/-- C6: the first well-formed reverse reply with the session nonce whose id
has a stored reverse binding erases that binding from the table in the very
step that dispatches its completion with `(error, result)`; in the
resulting state the id no longer resolves, so processing a second reply
with the same id dispatches nothing and leaves the state unchanged. -/
theorem C6_reverse_binding_consumed_once (st : WebviewState) (m : ReverseMessage) (rb : Nat)
    (hn : m.header.nonce = st.nonce)
    (hf : findVal m.header.id st.reverseBindings = some rb) :
    OnMessage st (RawMsg.wellFormed (Message.reverse m)) =
      Except.ok ({ st with reverseBindings := eraseKey m.header.id st.reverseBindings },
                 [Effect.dispatch (Task.invokeReverse rb m.error (m.result.getD ""))]) ∧
    findVal m.header.id
      ({ st with reverseBindings := eraseKey m.header.id st.reverseBindings }).reverseBindings
      = none ∧
    OnMessage { st with reverseBindings := eraseKey m.header.id st.reverseBindings }
        (RawMsg.wellFormed (Message.reverse m)) =
      Except.ok ({ st with reverseBindings := eraseKey m.header.id st.reverseBindings }, []) := by
  have hcond : ¬(m.header.nonce ≠ st.nonce) := fun hc => hc hn
  refine ⟨?_, ?_, ?_⟩
  · simp only [OnMessage, jsParse, if_neg hcond, hf]
  · exact findVal_eraseKey_self _ _
  · simp only [OnMessage, jsParse, if_neg hcond, findVal_eraseKey_self]

/-- C6 witness: the theorem applied at the concrete one-reverse-binding
state and its matching reply. -/
theorem C6_reverse_binding_consumed_once_witness :
    msgReverse7.header.nonce = stOneReverse.nonce ∧
    findVal msgReverse7.header.id stOneReverse.reverseBindings = some 42 ∧
    (OnMessage stOneReverse (RawMsg.wellFormed (Message.reverse msgReverse7)) =
      Except.ok ({ stOneReverse with
                    reverseBindings := eraseKey msgReverse7.header.id stOneReverse.reverseBindings },
                 [Effect.dispatch
                    (Task.invokeReverse 42 msgReverse7.error (msgReverse7.result.getD ""))]) ∧
     findVal msgReverse7.header.id
       ({ stOneReverse with
            reverseBindings := eraseKey msgReverse7.header.id stOneReverse.reverseBindings
        }).reverseBindings = none ∧
     OnMessage { stOneReverse with
                  reverseBindings := eraseKey msgReverse7.header.id stOneReverse.reverseBindings }
         (RawMsg.wellFormed (Message.reverse msgReverse7)) =
       Except.ok ({ stOneReverse with
                     reverseBindings := eraseKey msgReverse7.header.id stOneReverse.reverseBindings },
                  [])) :=
  ⟨rfl, rfl, C6_reverse_binding_consumed_once stOneReverse msgReverse7 42 rfl rfl⟩

/-- C7: `Bind` on a name that is already bound throws the DuplicateBinding
error; no new state and no effects are produced (the failed `emplace`
leaves the map with the previously stored handler, and neither the
registration-script regeneration nor the `onBind` evaluation is reached). -/
theorem C7_duplicate_bind_throws (st : WebviewState) (name : String) (h0 hNew : Nat)
    (hb : findVal name st.bindings = some h0) :
    Bind st name hNew = Except.error (Err.duplicate name) := by
  unfold Bind
  rw [hb]
  rfl

/-- C7 witness: the theorem applied at the concrete one-binding state. -/
theorem C7_duplicate_bind_throws_witness :
    findVal "add" stOneBinding.bindings = some 5 ∧
    Bind stOneBinding "add" 9 = Except.error (Err.duplicate "add") :=
  ⟨rfl, C7_duplicate_bind_throws stOneBinding "add" 5 9 rfl⟩

/-- C8: `Unbind` on a name that is not bound throws the NotFound error; no
new state and no effects are produced (`bindings_.erase` removed nothing,
the registration script is not regenerated, the user-script list is not
touched and no notification is evaluated). -/
theorem C8_unbind_unknown_throws (st : WebviewState) (name : String)
    (hb : findVal name st.bindings = none) :
    Unbind st name = Except.error (Err.notFound name) := by
  unfold Unbind
  rw [hb]
  rfl

/-- C8 witness: the theorem applied at the concrete one-binding state and an
unknown name. -/
theorem C8_unbind_unknown_throws_witness :
    findVal "mul" stOneBinding.bindings = none ∧
    Unbind stOneBinding "mul" = Except.error (Err.notFound "mul") :=
  ⟨rfl, C8_unbind_unknown_throws stOneBinding "mul" rfl⟩

/-- C9: after every finite sequence of `Bind`/`Unbind` operations
(unsuccessful ones leave the state untouched), the registration script
registers exactly the currently bound names: a name is in the generated
method array iff it is currently bound. -/
theorem C9_bind_script_exact (nonce : String) (ops : List RegOp) (name : String) :
    name ∈ bindScriptNames (runReg nonce ops) ↔
      (findVal name (runReg nonce ops).bindings).isSome = true := by
  rcases BindScriptInv_runReg nonce ops with ⟨hnone, hsome⟩
  rw [findVal_isSome_iff_mem_keys]
  cases hbs : (runReg nonce ops).bindScript with
  | none =>
    rw [bindScriptNames, hbs, hnone hbs]
    simp
  | some l =>
    rw [bindScriptNames, hbs, hsome l hbs]
    rfl

/-- C5: over every sequence of bridge steps, each outbound call issued
before shutdown settles at most once at any point, and exactly once when
shutdown has completed (a matching reverse reply settles it and consumes
its reverse binding, shutdown draining force-rejects whatever is still
pending); moreover the draining coroutine emits, for every still-pending
handle, its forced rejection immediately followed by the await of its
underlying computation, and releases the table only afterwards. -/
theorem C5_future_settles_exactly_once (ops : List BOp) :
    (∀ id, id ∈ (runB ops).issued → occ id (runB ops).settled ≤ 1) ∧
    ((runB ops).handles = none →
      ∀ id, id ∈ (runB ops).issued → occ id (runB ops).settled = 1) ∧
    (∀ (hs : List Nat) (id : Nat), id ∈ hs → ∃ pre mid,
      PromisesCleaner hs =
        pre ++ [DrainEff.reject id, DrainEff.waitDone id] ++ mid ++ [DrainEff.release]) := by
  have hinv := BInv_runB ops
  refine ⟨?_, ?_, ?_⟩
  · intro id hid
    cases hh : (runB ops).handles with
    | none =>
      rw [hinv.doneOne id hid (Or.inl hh)]
    | some hs =>
      by_cases hrb : id ∈ (runB ops).reverseBindings
      · rw [hinv.pendingZero hs hh id hid hrb]
        omega
      · rw [hinv.doneOne id hid (Or.inr hrb)]
  · intro hh id hid
    exact hinv.doneOne id hid (Or.inl hh)
  · intro hs id hmem
    rcases drainSeq_decompose id hs hmem with ⟨pre, post, hpp⟩
    refine ⟨pre, post, ?_⟩
    rw [PromisesCleaner, hpp]

/-- C5 witness: the theorem applied to the trace that issues one call and
then shuts down, and to a concrete pending-handle list. -/
theorem C5_future_settles_exactly_once_witness :
    (1 ∈ (runB [BOp.call, BOp.shutdown]).issued ∧
      occ 1 (runB [BOp.call, BOp.shutdown]).settled ≤ 1) ∧
    ((runB [BOp.call, BOp.shutdown]).handles = none ∧
      occ 1 (runB [BOp.call, BOp.shutdown]).settled = 1) ∧
    (3 ∈ [3] ∧ ∃ pre mid,
      PromisesCleaner [3] =
        pre ++ [DrainEff.reject 3, DrainEff.waitDone 3] ++ mid ++ [DrainEff.release]) :=
  ⟨⟨by decide, (C5_future_settles_exactly_once [BOp.call, BOp.shutdown]).1 1 (by decide)⟩,
   ⟨by decide,
    (C5_future_settles_exactly_once [BOp.call, BOp.shutdown]).2.1 (by decide) 1 (by decide)⟩,
   ⟨by decide, (C5_future_settles_exactly_once [BOp.call, BOp.shutdown]).2.2 [3] 3 (by decide)⟩⟩

/-- C10: `Navigate` with an empty URL navigates to `about:blank`; with a
non-empty URL it navigates to that URL unchanged. -/
theorem C10_navigate_empty_url :
    Navigate "" = "about:blank" ∧ ∀ url : String, url ≠ "" → Navigate url = url := by
  refine ⟨rfl, ?_⟩
  intro url h
  rw [Navigate, if_neg h]

/-- C10 witness: the theorem applied at a concrete non-empty URL. -/
theorem C10_navigate_empty_url_witness :
    Navigate "" = "about:blank" ∧
    ("https://example.org" ≠ "" ∧
      Navigate "https://example.org" = "https://example.org") :=
  ⟨C10_navigate_empty_url.1,
   by decide, C10_navigate_empty_url.2 "https://example.org" (by decide)⟩

end Webview
